import Mathlib

/-!
Shallow embedding of the concept-extraction engine (`src/parse.py`) and the
bounded command interpreter (`src/llm.py`) of the `specysis` repository,
together with theorems settling the frozen claims about them.

The document tree (BeautifulSoup's node model) is embedded as a rose tree
`Node` with element, text and comment nodes.  Nodes are addressed by paths
(child-index lists); tree "mutation" performed by the default consumption
handler `escape` (replace an element in place by a comment holding its
serialization) is modelled by functional in-place replacement, which keeps
all sibling paths stable exactly as the source's insert-before-then-decompose
sequence does.  Python exceptions are modelled with `Except PyErr`.
-/

set_option autoImplicit false

namespace Specysis

/-- Python runtime errors that the embedded code can raise. -/
inductive PyErr where
  | typeError
  | zeroDivisionError
  | keyError
  deriving DecidableEq, Repr

/-- Python's `\s` whitespace class (ASCII part, as used by `re` and `str.strip`). -/
def pySpace (c : Char) : Bool :=
  c = ' ' || c = '\t' || c = '\n' || c = '\r' || c = '\x0b' || c = '\x0c'

/-- One pass of `re.sub(r'\\?"|\s+', " ", token)` over a character list.
The boolean flag records whether we are inside a whitespace run that has
already emitted its single replacement space (`\s+` is replaced as a whole
run; a quote, optionally preceded by a backslash, is replaced separately). -/
def cleanSubGo : Bool → List Char → List Char
  | _, [] => []
  | _, '\\' :: '"' :: r => ' ' :: cleanSubGo false r
  | _, '"' :: r => ' ' :: cleanSubGo false r
  | inRun, c :: r =>
      if pySpace c then
        if inRun then cleanSubGo true r else ' ' :: cleanSubGo true r
      else c :: cleanSubGo false r

/-- Python `str.strip()` on a character list. -/
def pyStrip (l : List Char) : List Char :=
  ((l.dropWhile pySpace).reverse.dropWhile pySpace).reverse

/-- `clean_token` from `src/parse.py`: collapse whitespace runs and (escaped)
quote characters to single spaces, then strip. -/
def clean_token (s : String) : String :=
  String.mk (pyStrip (cleanSubGo false s.toList))

/-- `re.sub(r'[`\,\.]', '', txt)` used by `is_multiple_dfn`: drop backticks,
commas and periods. -/
def stripPunct (s : String) : String :=
  String.mk (s.toList.filter (fun c => !(c = '`' || c = ',' || c = '.')))

/-- Document node: an element with tag, attributes and children, a text node
(`NavigableString`), or a comment (which in bs4 is itself a `NavigableString`
subclass, so text-collecting loops see its content too). -/
inductive Node where
  | elem (tag : String) (attrs : List (String × String)) (children : List Node)
  | text (s : String)
  | comment (s : String)

/-- A path addressing a node: the list of child indices from the root. -/
abbrev Path := List Nat

/-- Python `el.get(attr)`: first binding of the attribute, if present. -/
def attrGet (attrs : List (String × String)) (key : String) : Option String :=
  (attrs.find? (fun kv => kv.1 = key)).map (·.2)

/-- Python `el.get(attr, "")`. -/
def attrGetD (attrs : List (String × String)) (key : String) : String :=
  (attrGet attrs key).getD ""

mutual
/-- `str(node)`: serialize a node back to markup. -/
def serializeNode : Node → String
  | .text s => s
  | .comment s => "<!--" ++ s ++ "-->"
  | .elem t attrs cs =>
      "<" ++ t ++ String.join (attrs.map (fun kv => " " ++ kv.1 ++ "=\"" ++ kv.2 ++ "\""))
        ++ ">" ++ serializeNodes cs ++ "</" ++ t ++ ">"

/-- Serialize a list of sibling nodes. -/
def serializeNodes : List Node → String
  | [] => ""
  | n :: ns => serializeNode n ++ serializeNodes ns
end

/-- Node lookup along a path. -/
def getAt? : Node → Path → Option Node
  | n, [] => some n
  | .elem _ _ cs, i :: p =>
      match cs[i]? with
      | some c => getAt? c p
      | none => none
  | _, _ :: _ => none

/-- Replace the node at a path (in-place: sibling indices are unchanged,
matching the `insert_before` + `decompose` sequence of `escape`). -/
def replaceAt : Node → Path → Node → Node
  | _, [], r => r
  | .elem t a cs, i :: p, r =>
      match cs[i]? with
      | some c => .elem t a (cs.set i (replaceAt c p r))
      | none => .elem t a cs
  | n, _ :: _, _ => n

mutual
/-- Pre-order (document-order) list of all paths in the subtree rooted at `p`,
the root path `p` first: the order in which bs4's `next_element` visits nodes. -/
def preNode : Node → Path → List Path
  | .text _, p => [p]
  | .comment _, p => [p]
  | .elem _ _ cs, p => p :: preKids cs p 0

/-- Pre-order paths of a list of children starting at child index `i`. -/
def preKids : List Node → Path → Nat → List Path
  | [], _, _ => []
  | c :: cs, p, i => preNode c (p ++ [i]) ++ preKids cs p (i + 1)
end

/-- Is the node at `q` an element with the given tag? -/
def isElemTag (doc : Node) (q : Path) (tag : String) : Bool :=
  match getAt? doc q with
  | some (.elem t _ _) => t = tag
  | _ => false

/-- `base.find_all(tag)`: strict descendants of the node at `base` that are
elements with the given tag, in document order.  (bs4's `find_all` matches
tags only, never strings or comments, and excludes the start node itself.) -/
def findAllTag (doc : Node) (base : Path) (tag : String) : List Path :=
  match getAt? doc base with
  | some n => ((preNode n base).filter (fun q => q ≠ base)).filter (fun q => isElemTag doc q tag)
  | none => []

/-- Children of the node at `p` (empty for non-elements and invalid paths). -/
def childrenAt (doc : Node) (p : Path) : List Node :=
  match getAt? doc p with
  | some (.elem _ _ cs) => cs
  | _ => []

/-- Is a node an element (a bs4 `Tag`)? -/
def Node.isElem : Node → Bool
  | .elem _ _ _ => true
  | _ => false

/-- `el.find_next_sibling()`: the next sibling that is a Tag (strings and
comments are skipped); `none` at the end of the sibling list or at the root. -/
def findNextSiblingElem (doc : Node) (p : Path) : Option Path :=
  match p.getLast? with
  | none => none
  | some i =>
      let pre := p.dropLast
      let sibs := childrenAt doc pre
      let rec go (j : Nat) (rest : List Node) : Option Path :=
        match rest with
        | [] => none
        | n :: rest => if n.isElem then some (pre ++ [j]) else go (j + 1) rest
      go (i + 1) (sibs.drop (i + 1))

/-- `el.next_sibling`: the immediately following sibling of any node kind. -/
def rawNextSibling (doc : Node) (p : Path) : Option Path :=
  match p.getLast? with
  | none => none
  | some i =>
      let pre := p.dropLast
      if i + 1 < (childrenAt doc pre).length then some (pre ++ [i + 1]) else none

/-- The string content bs4's `NavigableString`-collecting loops see: text and
comment nodes contribute their content, elements contribute nothing. -/
def navString (doc : Node) (q : Path) : String :=
  match getAt? doc q with
  | some (.text s) => s
  | some (.comment s) => s
  | _ => ""

/-- `text_between(el1, el2)` from `src/parse.py`: start at `el1.next_sibling`
(skipping the whole `el1` subtree; if `el1` has no next sibling the result is
empty), then follow `next_element` (pre-order) until reaching `el2` or the end
of the document, concatenating every `NavigableString` met on the way. -/
def text_between (doc : Node) (p1 p2 : Path) : String :=
  match rawNextSibling doc p1 with
  | none => ""
  | some s =>
      let order := (preNode doc []).dropWhile (fun q => q ≠ s)
      String.join ((order.takeWhile (fun q => q ≠ p2)).map (navString doc))

/-- `el.get_text(strip=True)`: every string in the subtree in document order,
each stripped, empty pieces dropped, concatenated. -/
def getTextStrip (doc : Node) (p : Path) : String :=
  match getAt? doc p with
  | some n => String.join ((preNode n p).map (fun q => String.mk (pyStrip (navString doc q).toList)))
  | none => ""

/-- The ancestor chain of a path, the node itself first, the document root
(`[]`) last: the nodes visited by repeated `find_parent()`. -/
def ancestorChain (p : Path) : List Path :=
  (List.range (p.length + 1)).reverse.map (fun k => p.take k)

/-- `extract_identifier(el)` from `src/parse.py`: walk from the node upward
until an ancestor carries a non-empty `id` attribute; clean and return it, or
return the empty string if the root is reached with none found.  (The source's
final extra `.strip()` is a no-op after `clean_token`.) -/
def extract_identifier (doc : Node) (p : Path) : String :=
  let raw := ((ancestorChain p).findSome? (fun q =>
      match getAt? doc q with
      | some (.elem _ attrs _) =>
          let i := attrGetD attrs "id"
          if i = "" then none else some i
      | _ => none)).getD ""
  clean_token raw

/-- Insertion into the model of a Python `set` of strings: an
insertion-ordered duplicate-free list. -/
def insertUniq (l : List String) (x : String) : List String :=
  if x ∈ l then l else l ++ [x]

/-- `href.split("#")[-1]`: the fragment after the last `#` (the whole string
when there is none). -/
def lastHashFragment (href : String) : String :=
  ((href.splitOn "#").getLast?).getD href

/-- `extract_refs(definition)` from `src/parse.py`: every descendant `a`
element carrying a non-empty `href`, contributing the cleaned fragment part of
the target; duplicates collapse. -/
def extract_refs (doc : Node) (base : Path) : List String :=
  (findAllTag doc base "a").foldl (fun refs q =>
    match getAt? doc q with
    | some (.elem _ attrs _) =>
        match attrGet attrs "href" with
        | some href =>
            if href ≠ "" then insertUniq refs (clean_token (lastHashFragment href)) else refs
        | none => refs
    | _ => refs) []

/-- A concept record: one value of the `_concepts` dict of class
`Definitions`.  `_ensure_concept` initializes the dict with the keys
`dependencies`, `defined`, `dfn_txt`, `name` and `type` (field `type_` here);
the `ctype` key is only ever created by `set_ctype`, so it is modelled as
`Option`: `none` = key absent, `some v` = key present holding `v` (itself an
`Option String`, since the classification pass can store Python `None`). -/
structure ConceptRec where
  dependencies : List String
  defined : Bool
  dfn_txt : String
  name : String
  type_ : String
  ctype : Option (Option String)
  deriving DecidableEq, Repr

/-- The record `_ensure_concept` creates for a fresh identifier. -/
def defaultConcept : ConceptRec :=
  { dependencies := [], defined := false, dfn_txt := "", name := "", type_ := "unknown",
    ctype := none }

/-- The `_concepts` dict: insertion-ordered map from identifier to record. -/
abbrev Defs := List (String × ConceptRec)

/-- Key membership in the registry. -/
def hasKey (defs : Defs) (k : String) : Bool :=
  defs.any (fun e => e.1 = k)

/-- Registry lookup. -/
def lookupC (defs : Defs) (k : String) : Option ConceptRec :=
  (defs.find? (fun e => e.1 = k)).map (·.2)

/-- One step of `_ensure_concept`: create a stub unless the key exists. -/
def ensureOne (defs : Defs) (c : String) : Defs :=
  if hasKey defs c then defs else defs ++ [(c, defaultConcept)]

/-- `Definitions._ensure_concept(*concepts)`. -/
def ensure_concept (defs : Defs) (cs : List String) : Defs :=
  cs.foldl ensureOne defs

/-- Update the record stored under a key (no-op on absent keys). -/
def updateC (defs : Defs) (k : String) (f : ConceptRec → ConceptRec) : Defs :=
  defs.map (fun e => if e.1 = k then (e.1, f e.2) else e)

/-- `Definitions.set_ctype`: ensure the record exists, then write the `ctype`
key.  There is no empty-identifier guard in the source. -/
def set_ctype (defs : Defs) (identifier : String) (ctype : Option String) : Defs :=
  updateC (ensure_concept defs [identifier]) identifier (fun r => { r with ctype := some ctype })

/-- `Definitions.get_ctype`: for a known concept, read the `ctype` key (a
`KeyError` when `set_ctype` never ran for it, since `_ensure_concept` only
initializes a `type` key); for an unknown concept, log a warning and fall
through, returning Python `None`. -/
def get_ctype (defs : Defs) (identifier : String) : Except PyErr (Option String) :=
  match lookupC defs identifier with
  | some r =>
      match r.ctype with
      | some v => .ok v
      | none => .error .keyError
  | none => .ok none

/-- `Definitions.n_defined_concepts`. -/
def n_defined_concepts (defs : Defs) : Nat :=
  (defs.filter (fun e => e.2.defined)).length

/-- `str(node at p)`, the serialized defining region stored in `dfn_txt`. -/
def serializeAt (doc : Node) (p : Path) : String :=
  ((getAt? doc p).map serializeNode).getD ""

/-- `Definitions.add_dfn(dfn, dependencies)`: compute display name and
identifier; an empty identifier only logs a warning and skips; otherwise
ensure records for the identifier and every dependency, log a warning when
redefining an already-defined record, and overwrite the `dependencies`,
`defined`, `dfn_txt` and `name` fields via `update_dict` (which touches no
other key of the record). -/
def add_dfn (defs : Defs) (doc : Node) (p : Path) (dependencies : List String) : Defs :=
  let name := clean_token (getTextStrip doc p)
  let identifier := extract_identifier doc p
  if identifier = "" then defs
  else
    let d1 := ensure_concept defs (identifier :: dependencies)
    updateC d1 identifier (fun r =>
      { r with dependencies := dependencies, defined := true,
               dfn_txt := serializeAt doc p, name := name })

/-- `get_graph`: project each record to its dependency list. -/
def get_graph (defs : Defs) : List (String × List String) :=
  defs.map (fun e => (e.1, e.2.dependencies))

/-- The connecting text between two markers after punctuation stripping and
cleaning, as computed inside `is_multiple_dfn`. -/
def gapText (doc : Node) (p1 p2 : Path) : String :=
  clean_token (stripPunct (text_between doc p1 p2))

/-- The membership test `connecting_txt in ("and", "", "and")`. -/
def gapOK (doc : Node) (p1 p2 : Path) : Bool :=
  gapText doc p1 p2 = "and" || gapText doc p1 p2 = ""

/-- The loop of `is_multiple_dfn`: check every consecutive pair. -/
def pairsOK (doc : Node) : List Path → Bool
  | a :: b :: rest => gapOK doc a b && pairsOK doc (b :: rest)
  | _ => true

/-- `is_multiple_dfn(dfns)` from `src/parse.py`: at least two markers, and the
text strictly between every consecutive pair, with backticks, commas and
periods removed and whitespace cleaned, is empty or the word `and`. -/
def is_multiple_dfn (doc : Node) (dfns : List Path) : Bool :=
  if dfns.length ≤ 1 then false else pairsOK doc dfns

/-- The loop of `is_dfn_and_concepts` with its `found_non_concept` flag. -/
def dfnAndConceptsGo (doc : Node) (found : Bool) : List Path → Bool
  | [] => true
  | p :: rest =>
      if !(extract_identifier doc p).startsWith "concept" then
        if found then false else dfnAndConceptsGo doc true rest
      else dfnAndConceptsGo doc found rest

/-- `is_dfn_and_concepts(dfns)`: accept when at most one marker has an
identifier not starting with `concept`. -/
def is_dfn_and_concepts (doc : Node) (dfns : List Path) : Bool :=
  dfnAndConceptsGo doc false dfns

/-- The raw `data-dfn-for` attribute with Python's falsy `None`/`""` collapsed
to `""` (only its truthiness and its string value on truthy markers are used). -/
def dfnFor (doc : Node) (p : Path) : String :=
  match getAt? doc p with
  | some (.elem _ attrs _) => attrGetD attrs "data-dfn-for"
  | _ => ""

/-- `is_dfn_and_dfnfors(dfns)`: exactly one marker lacks `data-dfn-for`, and
every marker carrying it points at that one marker's identifier. -/
def is_dfn_and_dfnfors (doc : Node) (dfns : List Path) : Bool :=
  let dfn_fors := dfns.filter (fun p => dfnFor doc p ≠ "")
  let dfns_nofor := dfns.filter (fun p => dfnFor doc p = "")
  match dfns_nofor with
  | [p0] => dfn_fors.all (fun p => dfnFor doc p = extract_identifier doc p0)
  | _ => false

/-- The default consumption handler `escape(el)`: insert a comment holding
`el`'s serialization before `el`, then decompose `el` — net effect, replace
the node in place by the comment `<!-- {el} -->`. -/
def escapeAt (doc : Node) (q : Path) : Node :=
  match getAt? doc q with
  | some n => replaceAt doc q (.comment (" " ++ serializeNode n ++ " "))
  | none => doc

/-- State threaded through the `extract_dfns` loop: the (mutated) tree, the
registry, and the six diagnostic counters. -/
structure ExtractState where
  doc : Node
  defs : Defs
  cnt_skip_multiple : Nat
  cnt_res_multiple : Nat
  cnt_res_concepts : Nat
  cnt_res_dfnfors : Nat
  cnt_skip_unknown : Nat
  cnt_skip_noid : Nat

/-- The multiple-marker gate of the `extract_dfns` loop: when the parent hosts
more than one marker, run the three disambiguation heuristics in their fixed
order, the first acceptance bumping its resolution counter; `none` means no
heuristic accepted (the marker will be skipped and counted separately).  A
parent hosting at most one marker passes unchanged. -/
def gateResult (st : ExtractState) (parent : Path) : Option ExtractState :=
  let dfns := findAllTag st.doc parent "dfn"
  if dfns.length > 1 then
    if is_multiple_dfn st.doc dfns then
      some { st with cnt_res_multiple := st.cnt_res_multiple + 1 }
    else if is_dfn_and_concepts st.doc dfns then
      some { st with cnt_res_concepts := st.cnt_res_concepts + 1 }
    else if is_dfn_and_dfnfors st.doc dfns then
      some { st with cnt_res_dfnfors := st.cnt_res_dfnfors + 1 }
    else none
  else some st

/-- Lines 256–275 of `src/parse.py`: the content-shape rule applied once the
identifier and ambiguity checks passed, dispatching on the parent's next
sibling element: a list-shaped sibling (`ol`/`ul`/`dl`) harvests dependencies
from the sibling and consumes both parent and sibling; an absent sibling or a
plain paragraph harvests from the parent and consumes only the parent; any
other sibling shape is counted as not understood and changes nothing else. -/
def shapeStep (st1 : ExtractState) (p parent : Path) : ExtractState :=
  match findNextSiblingElem st1.doc parent with
  | some q =>
      match getAt? st1.doc q with
      | some (.elem t _ _) =>
          if t = "ol" || t = "ul" || t = "dl" then
            let dependencies := extract_refs st1.doc q
            { st1 with
              defs := add_dfn st1.defs st1.doc p dependencies,
              doc := escapeAt (escapeAt st1.doc parent) q }
          else if t = "p" then
            let dependencies := extract_refs st1.doc parent
            { st1 with
              defs := add_dfn st1.defs st1.doc p dependencies,
              doc := escapeAt st1.doc parent }
          else
            { st1 with cnt_skip_unknown := st1.cnt_skip_unknown + 1 }
      | _ => st1
  | none =>
      let dependencies := extract_refs st1.doc parent
      { st1 with
        defs := add_dfn st1.defs st1.doc p dependencies,
        doc := escapeAt st1.doc parent }

/-- One iteration of the `extract_dfns` loop for the marker originally found
at path `p`.  A marker consumed by an earlier iteration (its path or an
ancestor was replaced by a comment) has `find_parent() = None` and is skipped;
then: empty identifier → counted skip; the heuristics gate (`gateResult`);
then the content-shape rule (`shapeStep`). -/
def extractStep (st : ExtractState) (p : Path) : ExtractState :=
  match getAt? st.doc p with
  | some (.elem "dfn" _ _) =>
      let parent := p.dropLast
      if extract_identifier st.doc p = "" then
        { st with cnt_skip_noid := st.cnt_skip_noid + 1 }
      else
        match gateResult st parent with
        | none => { st with cnt_skip_multiple := st.cnt_skip_multiple + 1 }
        | some st1 => shapeStep st1 p parent
  | _ => st

/-- The diagnostics `extract_dfns` logs after the pass. -/
structure Metrics where
  n_definitions : Nat
  n_remaining : Nat
  extr_rate : ℚ
  cnt_skip_noid : Nat
  cnt_skip_multiple : Nat
  cnt_res_multiple : Nat
  cnt_res_concepts : Nat
  cnt_res_dfnfors : Nat
  cnt_skip_unknown : Nat
  deriving DecidableEq, Repr

/-- Initial loop state. -/
def initState (doc : Node) (defs : Defs) : ExtractState :=
  { doc := doc, defs := defs, cnt_skip_multiple := 0, cnt_res_multiple := 0,
    cnt_res_concepts := 0, cnt_res_dfnfors := 0, cnt_skip_unknown := 0, cnt_skip_noid := 0 }

/-- `extract_dfns(soup, definitions)` from `src/parse.py`: iterate over the
markers found once up front, then compute the diagnostics.  The extraction
rate `n_definitions / (n_remaining_dfns + n_definitions)` raises
`ZeroDivisionError` when both counts are zero. -/
def extract_dfns (doc : Node) (defs : Defs) : Except PyErr (ExtractState × Metrics) :=
  let dfnPaths := findAllTag doc [] "dfn"
  let st := dfnPaths.foldl extractStep (initState doc defs)
  let n_remaining := (findAllTag st.doc [] "dfn").length
  let n_definitions := n_defined_concepts st.defs
  if n_remaining + n_definitions = 0 then .error .zeroDivisionError
  else
    .ok (st,
      { n_definitions := n_definitions, n_remaining := n_remaining,
        extr_rate := (n_definitions : ℚ) / ((n_remaining : ℚ) + (n_definitions : ℚ)),
        cnt_skip_noid := st.cnt_skip_noid, cnt_skip_multiple := st.cnt_skip_multiple,
        cnt_res_multiple := st.cnt_res_multiple, cnt_res_concepts := st.cnt_res_concepts,
        cnt_res_dfnfors := st.cnt_res_dfnfors, cnt_skip_unknown := st.cnt_skip_unknown })

/-- Character-list version of "starts with". -/
def startsWithChars : List Char → List Char → Bool
  | [], _ => true
  | _ :: _, [] => false
  | a :: as, b :: bs => a = b && startsWithChars as bs

/-- Scan for the closing quote of `category="..."`: collect characters up to
the first `"`; fail on a newline (`.` in the pattern does not match `\n`) or
if no quote follows. -/
def scanToQuote (acc : List Char) : List Char → Option (List Char)
  | [] => none
  | c :: rest =>
      if c = '"' then some acc.reverse
      else if c = '\n' then none
      else scanToQuote (c :: acc) rest

/-- Try to match `category="(.+?)"` starting right after the literal
`category="`: the lazy group takes one unconditional character (which may
itself be a quote) and then everything up to the next closing quote. -/
def matchCatAt : List Char → Option (List Char)
  | [] => none
  | c0 :: rest => if c0 = '\n' then none else scanToQuote [c0] rest

/-- The literal part of the pattern `re.search(r'category="(.+?)".*', res)`. -/
def litCat : List Char := "category=\"".toList

/-- `re.search` for `category="(.+?)"`: try every start position left to
right, returning the first group that matches. -/
def findCatGo : List Char → Option String
  | [] => none
  | l@(_ :: rest) =>
      if startsWithChars litCat l then
        match matchCatAt (l.drop litCat.length) with
        | some g => some (String.mk g)
        | none => findCatGo rest
      else findCatGo rest

/-- Parse the oracle response of the classification pass. -/
def findCategory (res : String) : Option String :=
  findCatGo res.toList

/-- The classification prompt after `re.sub(r"\ +", " ", template)` and
`.format(context=..., identifier=...)`. -/
def classifyPrompt (context identifier : String) : String :=
  "\n ```\n " ++ context ++ "\n ```\n Classify the concept `#" ++ identifier ++
  "` into one of these categories:\n \"callable\", \"variable\", \"value\", \"unknown\"\n Respond only with the category, nothing else.\n "

/-- `llm_classify_dfn(parent, dfn)` from `src/parse.py`.  The oracle is the
external LLM, modelled as a function from the prompt text to its response.
Result `none` is Python `None` (empty identifier: the node is not classified);
otherwise the parsed category, with anything the `category="..."` pattern
cannot extract, or an extracted label outside the closed set, coerced to
`"unknown"`. -/
def llm_classify_dfn (oracle : String → String) (doc : Node) (parent p : Path) :
    Option String :=
  let context := serializeAt doc parent
  let identifier := extract_identifier doc p
  if identifier = "" then none
  else
    let res := oracle (classifyPrompt context identifier)
    match findCategory res with
    | none => some "unknown"
    | some ctype =>
        if ctype = "callable" || ctype = "variable" || ctype = "value" || ctype = "unknown"
        then some ctype
        else some "unknown"

/-- `classify_dfns(soup, definitions)` from `src/parse.py`: for every marker,
query the oracle (`llm_classify_dfn` itself skips the query on an empty
identifier and returns `None`) and unconditionally write the result into the
registry via `set_ctype`.  The pass never mutates the tree, so in this
unmutated document every found marker has a parent and the
`if not parent: continue` guard never fires. -/
def classify_dfns (oracle : String → String) (doc : Node) (defs : Defs) : Defs :=
  (findAllTag doc [] "dfn").foldl (fun defs p =>
    let res := llm_classify_dfn oracle doc p.dropLast p
    let identifier := extract_identifier doc p
    set_ctype defs identifier res) defs

/-! ## The bounded command interpreter (`src/llm.py`) -/

/-- One parsed argument of an oracle command: a plain string piece, or a
`[...]`-shaped piece split into a list. -/
inductive PyArg where
  | s (v : String)
  | l (v : List String)
  deriving DecidableEq, Repr

/-- `[a-zA-Z0-9_]`. -/
def isWordChar (c : Char) : Bool := c.isAlphanum || c = '_'

/-- The full-match `^\[([^\]]*)\]$` pass over one already-split argument. -/
def listArgMatch (arg : String) : Option (List String) :=
  match arg.toList with
  | '[' :: rest =>
      match rest.reverse with
      | ']' :: midrev =>
          let mid := midrev.reverse
          if mid.contains ']' then none
          else some ((String.mk mid).splitOn ",")
      | _ => none
  | _ => none

/-- `LLMTask.parse_response`: `re.match` of
`([a-zA-Z0-9_]+)\(([^\)]*)\)` (trailing text ignored), the argument text split
on commas, each piece optionally re-parsed as a list.  An unparseable line
yields Python `None`. -/
def parse_response (msg : String) : Option (String × List PyArg) :=
  let cs := msg.toList
  let meth := cs.takeWhile isWordChar
  if meth.isEmpty then none
  else
    match cs.drop meth.length with
    | '(' :: rest =>
        let inner := rest.takeWhile (fun c => c ≠ ')')
        match rest.drop inner.length with
        | ')' :: _ =>
            let argStr := String.mk inner
            let args := if argStr = "" then [] else argStr.splitOn ","
            some (String.mk meth, args.map (fun a =>
              match listArgMatch a with
              | some l => PyArg.l l
              | none => PyArg.s a))
        | _ => none
    | _ => none

/-- An entry of the interpreter's solution log: `("new", concept)` or
`("add", concept, dependencies)`. -/
inductive SolEntry where
  | newC (concept : PyArg)
  | addDeps (concept : PyArg) (dependencies : PyArg)
  deriving DecidableEq, Repr

/-- The state of `LLMTask`: the sibling chain holding the context node, the
three context pointers (`None`-able), the `done` flag, the solution log and
the step budget. -/
structure LLMTask where
  sibs : List Node
  prev : Option Nat
  cur : Option Nat
  next_ : Option Nat
  done : Bool
  solution : List SolEntry
  max_steps : Nat

/-- `LLMTask.__init__(context, max_steps=10)`: all three pointers start at the
context node (index `i` in its sibling chain). -/
def mkLLMTask (sibs : List Node) (i : Nat) (max_steps : Nat := 10) : LLMTask :=
  { sibs := sibs, prev := some i, cur := some i, next_ := some i,
    done := false, solution := [], max_steps := max_steps }

/-- `find_previous_sibling()`: nearest preceding sibling that is a Tag. -/
def prevSibElemIdx (sibs : List Node) (i : Nat) : Option Nat :=
  (List.range i).reverse.find? (fun j => ((sibs[j]?).map Node.isElem).getD false)

/-- `find_next_sibling()`: nearest following sibling that is a Tag. -/
def nextSibElemIdx (sibs : List Node) (i : Nat) : Option Nat :=
  (List.range sibs.length).find? (fun j => i < j && ((sibs[j]?).map Node.isElem).getD false)

/-- `fmt_node`: serialization with newlines removed. -/
def fmt_node (n : Node) : String :=
  String.mk ((serializeNode n).toList.filter (fun c => c ≠ '\n'))

/-- `get_previous_context()`: move the `prev` pointer one Tag-sibling back and
return its serialization, or the start-of-file sentinel at the boundary. -/
def getPreviousContext (st : LLMTask) : LLMTask × String :=
  match st.prev with
  | none => (st, "<start of file>")
  | some i =>
      match prevSibElemIdx st.sibs i with
      | none => ({ st with prev := none }, "<start of file>")
      | some j => ({ st with prev := some j }, ((st.sibs[j]?).map fmt_node).getD "")

/-- `get_next_context()`. -/
def getNextContext (st : LLMTask) : LLMTask × String :=
  match st.next_ with
  | none => (st, "<end of file>")
  | some i =>
      match nextSibElemIdx st.sibs i with
      | none => ({ st with next_ := none }, "<end of file>")
      | some j => ({ st with next_ := some j }, ((st.sibs[j]?).map fmt_node).getD "")

/-- The `getattr(self, method)(*args)` dispatch wrapped in `try/except`,
modelled on the vocabulary the theorems exercise: the five advertised
primitives with Python's arity behavior (a wrong argument count raises
`TypeError`, caught and answered with the corrective message), and any name
that is not an attribute of the task object raising `AttributeError`, equally
caught (the catch-all branch).  The second component is the message for the
next prompt (`none` is the Python `None` that `finish` returns).  In the
source, `getattr` can also reach the object's other attributes — helper
methods such as `query_llm` (which consumes extra oracle input) or inherited
dunders such as `__delattr__` or `__init__` (which can delete or rebind the
interpreter's state) — and the catch-all branch does not cover those names:
the concrete evaluation theorems use only names of the two covered kinds, and
the quantified theorem restricts the oracle to the advertised primitives via
`primCallB`. -/
def dispatch (st : LLMTask) (m : String) (args : List PyArg) : LLMTask × Option String :=
  if m = "finish" then
    match args with
    | [] => ({ st with done := true }, none)
    | _ => (st, some "Unknown method call.")
  else if m = "create_concept" then
    match args with
    | [c] => ({ st with solution := st.solution ++ [.newC c] }, some "done")
    | _ => (st, some "Unknown method call.")
  else if m = "add_dependencies" then
    match args with
    | [c, d] => ({ st with solution := st.solution ++ [.addDeps c d] }, some "done")
    | _ => (st, some "Unknown method call.")
  else if m = "get_previous_context" then
    match args with
    | [] => let r := getPreviousContext st; (r.1, some r.2)
    | _ => (st, some "Unknown method call.")
  else if m = "get_next_context" then
    match args with
    | [] => let r := getNextContext st; (r.1, some r.2)
    | _ => (st, some "Unknown method call.")
  else (st, some "Unknown method call.")

/-- `make_initial_prompt(task)` after space-run collapapsing and formatting. -/
def make_initial_prompt (st : LLMTask) (task : String) : String :=
  let methods := "get_previous_context(), get_next_context(), add_dependencies(concept, [dependencies]), create_concept(concept), finish()"
  let context := ((st.cur.bind (fun i => st.sibs[i]?)).map fmt_node).getD ""
  "\n Here is the spec context:\n " ++ context ++ "\n Here are the available methods:\n " ++
    methods ++ "\n Here is your task:\n " ++ task ++ "\n Provide the next method call: \n "

/-- The `for _ in range(self.max_steps)` loop of `LLMTask.prompt`.  The oracle
is modelled as a stream of responses indexed by the number of interactions so
far (`input()` reads one line per call, whatever the prompt text was, so every
oracle behavior of one run is some stream); the message produced by a step
only feeds the next prompt's text and is therefore not observable here.
`parse_response` returning `None` makes the tuple unpacking
`method, args = ...` raise `TypeError` outside the `try` block — the loop
aborts.  When `done` is set the accumulated solution log is returned; when the
budget runs out the loop falls through and returns `None`.  The second
component counts the oracle interactions performed. -/
def promptLoop (st : LLMTask) (stream : Nat → String) (k fuel : Nat) :
    Except PyErr (Option (List SolEntry)) × Nat :=
  match fuel with
  | 0 => (.ok none, k)
  | fuel + 1 =>
      let rsp := stream k
      match parse_response rsp with
      | none => (.error .typeError, k + 1)
      | some ma =>
          let r := dispatch st ma.1 ma.2
          if r.1.done then (.ok (some r.1.solution), k + 1)
          else promptLoop r.1 stream (k + 1) fuel

/-- `LLMTask.prompt(msg)`: build the initial prompt and run the bounded loop. -/
def LLMTask.prompt (st : LLMTask) (stream : Nat → String) (task : String) :
    Except PyErr (Option (List SolEntry)) × Nat :=
  let _msg := make_initial_prompt st task
  promptLoop st stream 0 st.max_steps

/-! ## Concrete documents used by witnesses and counterexamples -/

/-- A parent paragraph hosting three markers `a`, `b`, `c` with the gap texts
`","` and `" and "` — the conjunction example of the spec. -/
def docConj : Node :=
  .elem "[document]" []
    [.elem "p" []
      [.elem "dfn" [("id", "a")] [.text "A"], .text ",",
       .elem "dfn" [("id", "b")] [.text "B"], .text " and ",
       .elem "dfn" [("id", "c")] [.text "C"]]]

/-- A marker inside a `div` whose next sibling is an unordered list holding
two cross-reference links. -/
def docListShape : Node :=
  .elem "[document]" []
    [.elem "div" [] [.elem "dfn" [("id", "x")] [.text "X"]],
     .elem "ul" []
       [.elem "li" [] [.elem "a" [("href", "/spec#y")] [.text "y"]],
        .elem "li" [] [.elem "a" [("href", "#z")] [.text "z"]]]]

/-- A single marker with identifier `x` inside a `div` with no next sibling. -/
def docSingle : Node :=
  .elem "[document]" [] [.elem "div" [] [.elem "dfn" [("id", "x")] [.text "X"]]]

/-- A marker with no `id` attribute anywhere in its ancestor chain. -/
def docNoId : Node :=
  .elem "[document]" [] [.elem "div" [] [.elem "dfn" [] [.text "t"]]]

/-- A document holding no marker node at all. -/
def docNoMarkers : Node :=
  .elem "[document]" [] [.elem "p" [] [.text "no markers here"]]

/-! ## Claims -/

/-- C2.  The claim says the extraction pass always completes and emits its
diagnostic counts and extraction rate, in particular also on a document in
which no marker yields a definition and no marker node remains after the
pass.  On exactly that input the code instead evaluates
`extr_rate = n_definitions / (n_remaining_dfns + n_definitions)` as `0 / 0`
and raises `ZeroDivisionError`: the pass does not complete and nothing is
emitted. -/
theorem claim_C2_zero_division :
    (findAllTag docNoMarkers [] "dfn" = []) ∧
    n_defined_concepts [] = 0 ∧
    extract_dfns docNoMarkers [] = .error .zeroDivisionError :=
  ⟨rfl, rfl, rfl⟩

/-- C4.  In the extraction engine an empty identifier does skip the node
without touching the registry (`add_dfn` returns early), but in the
classification pass it does not: `llm_classify_dfn` skips the oracle query and
returns `None`, yet `classify_dfns` still calls
`set_ctype(extract_identifier(dfn), None)` unconditionally, which creates a
registry record keyed by the empty string with `ctype = None` — contradicting
the skip the code itself logs (`"... skip classifying dfn"`) and the claimed
hard-stop rule. -/
theorem claim_C4_empty_identifier_not_skipped :
    (extract_identifier docNoId [0, 0] = "") ∧
    (add_dfn [] docNoId [0, 0] [] = []) ∧
    (classify_dfns (fun _ => "callable") docNoId [] =
      [("", { dependencies := [], defined := false, dfn_txt := "", name := "",
              type_ := "unknown", ctype := some none })]) :=
  ⟨rfl, rfl, rfl⟩

/-- C5.  The claim says a response exactly matching one of the four labels is
recorded as that label.  The parser `re.search(r'category="(.+?)".*', res)`
can never match a bare label, so the exact single-token response `"callable"`
demanded by the code's own prompt is coerced to `"unknown"`; only a response
containing `category="..."` is recorded as its label. -/
theorem claim_C5_exact_label_not_recorded :
    (findCategory "callable" = none) ∧
    (llm_classify_dfn (fun _ => "callable") docSingle [0] [0, 0] = some "unknown") ∧
    (llm_classify_dfn (fun _ => "category=\"callable\"") docSingle [0] [0, 0] =
      some "callable") :=
  ⟨rfl, rfl, rfl⟩

/-- C6.  The claim says `classification` is present from record creation,
defaults to Unknown, and reading it for an untouched record yields Unknown.
In the code `_ensure_concept` initializes a `"type"` key while `set_ctype` and
`get_ctype` use the `"ctype"` key, so reading the classification of any record
the classification pass never touched raises `KeyError` instead — here both
for the stub `y` and for the defined concept `x`. -/
theorem claim_C6_classification_read_fails :
    (lookupC (add_dfn [] docListShape [0, 0] ["y"]) "y" = some defaultConcept) ∧
    (defaultConcept.type_ = "unknown" ∧ defaultConcept.ctype = none) ∧
    (get_ctype (add_dfn [] docListShape [0, 0] ["y"]) "y" = .error .keyError) ∧
    (get_ctype (add_dfn [] docListShape [0, 0] ["y"]) "x" = .error .keyError) :=
  ⟨rfl, ⟨rfl, rfl⟩, rfl, rfl⟩

/-- C7.  The claim says an unparseable response line is answered with a
corrective message and consumes one budget step without aborting the loop.
In the code `method, args = self.parse_response(rsp)` sits outside the
`try` block, so `parse_response` returning `None` makes the unpacking raise
`TypeError` and the loop aborts after one interaction.  (An unknown primitive
name, by contrast, is caught and answered with the corrective message, and the
loop does continue — third conjunct.) -/
theorem claim_C7_unparseable_aborts :
    (parse_response "please stop" = none) ∧
    ((mkLLMTask [] 0).prompt (fun _ => "please stop") "resolve" =
      (.error .typeError, 1)) ∧
    ((mkLLMTask [] 0).prompt (fun k => if k = 0 then "frobnicate()" else "finish()") "resolve" =
      (.ok (some []), 2)) :=
  ⟨rfl, rfl, rfl⟩

/-- C8, counterexample.  With the default budget of 10, an oracle whose first
response does not parse as `name(args)` makes the loop raise `TypeError`
after one interaction: the interpreter exits in a third way, neither
returning the accumulated solution log nor returning `None`. -/
theorem claim_C8_counterexample :
    (mkLLMTask [] 0).prompt (fun _ => "not a method call") "task" =
      (.error .typeError, 1) :=
  rfl

/-- Registry after a first extraction of `x`. -/
def c3base : Defs := add_dfn [] docSingle [0, 0] []

/-- The same registry after the classification pass wrote `callable` for `x`. -/
def c3classified : Defs := set_ctype c3base "x" (some "callable")

/-- Redefinition of the already-defined `x` starting from the classified
registry. -/
def c3redefined : Defs := add_dfn c3classified docSingle [0, 0] []

/-- The identical redefinition call starting from the unclassified registry. -/
def c3redefinedPlain : Defs := add_dfn c3base docSingle [0, 0] []

/-- C3, counterexample.  The claim says a redefinition overwrites all fields
except identity, retaining nothing from the previous definition.  But
`update_dict` writes only `dependencies`, `defined`, `dfn_txt` and `name`:
the classification field survives the redefinition (first conjunct), and the
identical `add_dfn` call from a state differing only in that field yields a
different record (remaining conjuncts) — a field is retained. -/
theorem claim_C3_counterexample :
    ((lookupC c3redefined "x").map ConceptRec.ctype = some (some (some "callable"))) ∧
    ((lookupC c3redefinedPlain "x").map ConceptRec.ctype = some none) ∧
    c3redefined ≠ c3redefinedPlain :=
  ⟨rfl, rfl, by decide⟩

/-! ## Registry lemmas -/

/-- The dependency-closure invariant: every identifier appearing in any
record's `dependencies` has a record in the registry. -/
def DepsClosed (defs : Defs) : Prop :=
  ∀ e ∈ defs, ∀ d ∈ e.2.dependencies, hasKey defs d = true

theorem hasKey_append_left {defs : Defs} {k : String} (l : Defs)
    (h : hasKey defs k = true) : hasKey (defs ++ l) k = true := by
  simp only [hasKey, List.any_append, Bool.or_eq_true]
  exact Or.inl h

theorem hasKey_ensureOne_mono {defs : Defs} {c k : String} (h : hasKey defs k = true) :
    hasKey (ensureOne defs c) k = true := by
  unfold ensureOne; split
  · exact h
  · exact hasKey_append_left _ h

theorem hasKey_ensureOne_self (defs : Defs) (c : String) :
    hasKey (ensureOne defs c) c = true := by
  unfold ensureOne; split
  · assumption
  · simp [hasKey]

theorem hasKey_ensure_mono {cs : List String} {defs : Defs} {k : String}
    (h : hasKey defs k = true) : hasKey (ensure_concept defs cs) k = true := by
  induction cs generalizing defs with
  | nil => exact h
  | cons c cs ih => exact ih (hasKey_ensureOne_mono h)

theorem hasKey_ensure_mem {cs : List String} {defs : Defs} {c : String} (h : c ∈ cs) :
    hasKey (ensure_concept defs cs) c = true := by
  induction cs generalizing defs with
  | nil => cases h
  | cons a cs ih =>
      rcases List.mem_cons.mp h with rfl | h
      · show hasKey (ensure_concept (ensureOne defs c) cs) c = true
        exact hasKey_ensure_mono (hasKey_ensureOne_self defs c)
      · exact ih h

theorem mem_ensureOne {defs : Defs} {c : String} {e : String × ConceptRec}
    (h : e ∈ ensureOne defs c) : e ∈ defs ∨ e = (c, defaultConcept) := by
  unfold ensureOne at h; split at h
  · exact Or.inl h
  · rcases List.mem_append.mp h with h | h
    · exact Or.inl h
    · exact Or.inr (List.mem_singleton.mp h)

theorem mem_ensure {cs : List String} {defs : Defs} {e : String × ConceptRec}
    (h : e ∈ ensure_concept defs cs) : e ∈ defs ∨ ∃ c, e = (c, defaultConcept) := by
  induction cs generalizing defs with
  | nil => exact Or.inl h
  | cons a cs ih =>
      rcases ih h with h' | h'
      · rcases mem_ensureOne h' with h'' | h''
        · exact Or.inl h''
        · exact Or.inr ⟨a, h''⟩
      · exact Or.inr h'

theorem hasKey_updateC (defs : Defs) (k : String) (f : ConceptRec → ConceptRec)
    (k' : String) : hasKey (updateC defs k f) k' = hasKey defs k' := by
  induction defs with
  | nil => rfl
  | cons e defs ih =>
      simp only [updateC, List.map_cons, hasKey, List.any_cons] at *
      have h1 : (if e.1 = k then (e.1, f e.2) else e).1 = e.1 := by split <;> rfl
      rw [h1, ih]

theorem depsClosed_ensure {defs : Defs} {cs : List String} (h : DepsClosed defs) :
    DepsClosed (ensure_concept defs cs) := by
  intro e he d hd
  rcases mem_ensure he with he' | ⟨c, rfl⟩
  · exact hasKey_ensure_mono (h e he' d hd)
  · simp [defaultConcept] at hd

theorem depsClosed_updateC {defs : Defs} {k : String} {deps : List String}
    {t n : String} (h : DepsClosed defs) (hd : ∀ d ∈ deps, hasKey defs d = true) :
    DepsClosed (updateC defs k (fun r =>
      { r with dependencies := deps, defined := true, dfn_txt := t, name := n })) := by
  intro e he d hdep
  rw [hasKey_updateC]
  simp only [updateC] at he
  rcases List.mem_map.mp he with ⟨e0, he0, he0e⟩
  by_cases hk : e0.1 = k
  · rw [if_pos hk] at he0e
    subst he0e
    exact hd d hdep
  · rw [if_neg hk] at he0e
    subst he0e
    exact h e0 he0 d hdep

theorem hasKey_of_lookupC {defs : Defs} {k : String} {r : ConceptRec}
    (h : lookupC defs k = some r) : hasKey defs k = true := by
  simp only [lookupC, Option.map_eq_some'] at h
  rcases h with ⟨e, he, rfl⟩
  have hmem := List.mem_of_find?_eq_some he
  have hp := List.find?_some he
  simp only [hasKey, List.any_eq_true]
  exact ⟨e, hmem, by simpa using hp⟩

theorem lookupC_append_of_hasKey {defs : Defs} (l : Defs) {k : String}
    (h : hasKey defs k = true) : lookupC (defs ++ l) k = lookupC defs k := by
  induction defs with
  | nil => simp [hasKey] at h
  | cons e defs ih =>
      simp only [hasKey, List.any_cons, Bool.or_eq_true] at h
      by_cases he : (e.1 = k : Bool) = true
      · simp only [lookupC, List.cons_append, List.find?_cons, he]
      · have h' : hasKey defs k = true := by
          rcases h with h | h
          · exact absurd h he
          · simpa [hasKey] using h
        simp only [lookupC, List.cons_append, List.find?_cons, he]
        simpa [lookupC] using ih h'

theorem lookupC_ensureOne_of_hasKey {defs : Defs} {c k : String}
    (h : hasKey defs k = true) : lookupC (ensureOne defs c) k = lookupC defs k := by
  unfold ensureOne; split
  · rfl
  · exact lookupC_append_of_hasKey _ h

theorem lookupC_ensure_of_hasKey {cs : List String} {defs : Defs} {k : String}
    (h : hasKey defs k = true) : lookupC (ensure_concept defs cs) k = lookupC defs k := by
  induction cs generalizing defs with
  | nil => rfl
  | cons c cs ih =>
      have step : ensure_concept defs (c :: cs) = ensure_concept (ensureOne defs c) cs := rfl
      rw [step, ih (hasKey_ensureOne_mono h), lookupC_ensureOne_of_hasKey h]

theorem lookupC_updateC_self (defs : Defs) (k : String) (f : ConceptRec → ConceptRec) :
    lookupC (updateC defs k f) k = (lookupC defs k).map f := by
  induction defs with
  | nil => rfl
  | cons e defs ih =>
      by_cases he : (e.1 = k : Bool) = true
      · have he' : e.1 = k := of_decide_eq_true he
        simp only [updateC, List.map_cons, lookupC, List.find?_cons, if_pos he', he]
        simp [he]
      · simp only [updateC, List.map_cons, lookupC, List.find?_cons]
        have he' : ¬ (e.1 = k) := of_decide_eq_false (Bool.not_eq_true _ ▸ he)
        rw [if_neg he']
        simp only [he, Bool.false_eq_true, reduceIte]
        simpa [lookupC, updateC] using ih

/-- `add_dfn` on a nonempty identifier: the stored record is the previous one
with `dependencies`, `defined`, `dfn_txt` and `name` overwritten and every
other field (`type` and, when present, `ctype`) carried over. -/
theorem add_dfn_lookup {defs : Defs} {doc : Node} {p : Path} {deps : List String}
    {r : ConceptRec} (hid : extract_identifier doc p ≠ "")
    (hl : lookupC defs (extract_identifier doc p) = some r) :
    lookupC (add_dfn defs doc p deps) (extract_identifier doc p) =
      some { dependencies := deps, defined := true, dfn_txt := serializeAt doc p,
             name := clean_token (getTextStrip doc p), type_ := r.type_, ctype := r.ctype } := by
  have hk := hasKey_of_lookupC hl
  simp only [add_dfn, if_neg hid]
  rw [lookupC_updateC_self, lookupC_ensure_of_hasKey hk, hl]
  rfl

theorem add_dfn_stubs {defs : Defs} {doc : Node} {p : Path} {deps : List String}
    (hid : extract_identifier doc p ≠ "") :
    hasKey (add_dfn defs doc p deps) (extract_identifier doc p) = true ∧
    ∀ d ∈ deps, hasKey (add_dfn defs doc p deps) d = true := by
  simp only [add_dfn, if_neg hid]
  constructor
  · rw [hasKey_updateC]; exact hasKey_ensure_mem (List.mem_cons_self _ _)
  · intro d hd
    rw [hasKey_updateC]
    exact hasKey_ensure_mem (List.mem_cons_of_mem _ hd)

theorem depsClosed_add_dfn {defs : Defs} {doc : Node} {p : Path} {deps : List String}
    (h : DepsClosed defs) : DepsClosed (add_dfn defs doc p deps) := by
  by_cases hid : extract_identifier doc p = ""
  · simpa [add_dfn, hid] using h
  · simp only [add_dfn, if_neg hid]
    exact depsClosed_updateC (depsClosed_ensure h)
      (fun d hd => hasKey_ensure_mem (List.mem_cons_of_mem _ hd))

theorem gateResult_some {st st1 : ExtractState} {parent : Path}
    (h : gateResult st parent = some st1) :
    st1.doc = st.doc ∧ st1.defs = st.defs ∧ st1.cnt_skip_unknown = st.cnt_skip_unknown := by
  unfold gateResult at h
  simp only at h
  split at h
  · split at h
    · simp only [Option.some.injEq] at h; subst h; exact ⟨rfl, rfl, rfl⟩
    · split at h
      · simp only [Option.some.injEq] at h; subst h; exact ⟨rfl, rfl, rfl⟩
      · split at h
        · simp only [Option.some.injEq] at h; subst h; exact ⟨rfl, rfl, rfl⟩
        · exact Option.noConfusion h
  · simp only [Option.some.injEq] at h; subst h; exact ⟨rfl, rfl, rfl⟩

/-- Shape of the content-shape dispatch at the registry level: the registry is
left unchanged or updated by a single `add_dfn` for this marker. -/
theorem shapeStep_defs (st1 : ExtractState) (p parent : Path) :
    (shapeStep st1 p parent).defs = st1.defs ∨
    ∃ deps, (shapeStep st1 p parent).defs = add_dfn st1.defs st1.doc p deps := by
  simp only [shapeStep]
  split
  · split
    · split
      · exact Or.inr ⟨_, rfl⟩
      · split
        · exact Or.inr ⟨_, rfl⟩
        · exact Or.inl rfl
    · exact Or.inl rfl
  · exact Or.inr ⟨_, rfl⟩

/-- Shape of one loop iteration at the registry level: the registry is left
unchanged or updated by a single `add_dfn` for this marker. -/
theorem extractStep_defs (st : ExtractState) (p : Path) :
    (extractStep st p).defs = st.defs ∨
    ∃ deps, (extractStep st p).defs = add_dfn st.defs st.doc p deps := by
  simp only [extractStep]
  split
  · by_cases hid : extract_identifier st.doc p = ""
    · rw [if_pos hid]; left; rfl
    · rw [if_neg hid]
      cases hgate : gateResult st p.dropLast with
      | none => left; rfl
      | some st1 =>
          obtain ⟨hdoc, hdefs, -⟩ := gateResult_some hgate
          show (shapeStep st1 p p.dropLast).defs = st.defs ∨
            ∃ deps, (shapeStep st1 p p.dropLast).defs = add_dfn st.defs st.doc p deps
          rcases shapeStep_defs st1 p p.dropLast with h' | ⟨deps, h'⟩
          · left; rw [h', hdefs]
          · right; exact ⟨deps, by rw [h', hdefs, hdoc]⟩
  · left; rfl

theorem depsClosed_foldl (ps : List Path) :
    ∀ {st : ExtractState}, DepsClosed st.defs →
      DepsClosed ((ps.foldl extractStep st).defs) := by
  induction ps with
  | nil => exact fun h => h
  | cons p ps ih =>
      intro st h
      apply ih
      rcases extractStep_defs st p with h' | ⟨deps, h'⟩
      · rw [h']; exact h
      · rw [h']; exact depsClosed_add_dfn h

theorem depsClosed_extract_dfns {doc : Node} {defs : Defs} {st : ExtractState}
    {m : Metrics} (h : DepsClosed defs) (hrun : extract_dfns doc defs = .ok (st, m)) :
    DepsClosed st.defs := by
  simp only [extract_dfns] at hrun
  split at hrun
  · exact Except.noConfusion hrun
  · simp only [Except.ok.injEq, Prod.mk.injEq] at hrun
    obtain ⟨h1, -⟩ := hrun
    subst h1
    exact depsClosed_foldl _ h

/-- C1.  Every identifier appearing in any record's `dependencies` has a
record in the table: `add_dfn` preserves the closure invariant and, for a
marker with a nonempty identifier, creates records for the defined identifier
and for every dependency identifier (first conjunct); consequently a whole
extraction run started on a closed registry ends with a closed registry
(second conjunct) — every registry update the loop performs goes through
`add_dfn`, which calls `_ensure_concept(identifier, *dependencies)` before
writing the dependency list. -/
theorem claim_C1_dependencies_closed :
    (∀ (defs : Defs) (doc : Node) (p : Path) (deps : List String),
        DepsClosed defs →
        DepsClosed (add_dfn defs doc p deps) ∧
        (extract_identifier doc p ≠ "" →
          hasKey (add_dfn defs doc p deps) (extract_identifier doc p) = true ∧
          ∀ d ∈ deps, hasKey (add_dfn defs doc p deps) d = true)) ∧
    (∀ (doc : Node) (defs : Defs) (st : ExtractState) (m : Metrics),
        DepsClosed defs → extract_dfns doc defs = .ok (st, m) → DepsClosed st.defs) :=
  ⟨fun _ _ _ _ h => ⟨depsClosed_add_dfn h, fun hid => add_dfn_stubs hid⟩,
   fun _ _ _ _ h hrun => depsClosed_extract_dfns h hrun⟩

/-- C1, witness: the invariant-preservation theorem applied to the concrete
list-shaped document, with all hypotheses discharged by computation. -/
theorem claim_C1_witness :
    DepsClosed (add_dfn [] docListShape [0, 0] ["y", "z"]) ∧
    hasKey (add_dfn [] docListShape [0, 0] ["y", "z"]) "x" = true ∧
    hasKey (add_dfn [] docListShape [0, 0] ["y", "z"]) "y" = true ∧
    hasKey (add_dfn [] docListShape [0, 0] ["y", "z"]) "z" = true := by
  have h := claim_C1_dependencies_closed.1 [] docListShape [0, 0] ["y", "z"]
    (fun e he => absurd he (List.not_mem_nil e))
  have hid : extract_identifier docListShape [0, 0] ≠ "" := by decide
  obtain ⟨hc, hstub⟩ := h
  obtain ⟨hx, hdeps⟩ := hstub hid
  refine ⟨hc, ?_, hdeps "y" (by simp), hdeps "z" (by simp)⟩
  exact (by decide : extract_identifier docListShape [0, 0] = "x") ▸ hx

/-- C3, amended.  A further `add_dfn` for an already-defined identifier
overwrites the structural fields `name`, `dependencies`, `dfn_txt` and
`defined` from the new defining region, retains the record's classification
fields (`type` and `ctype`), and never raises (`add_dfn` is a total function
into `Defs`; the redefinition only logs a warning). -/
theorem claim_C3_amended (defs : Defs) (doc : Node) (p : Path) (deps : List String)
    (r : ConceptRec) (hid : extract_identifier doc p ≠ "")
    (hl : lookupC defs (extract_identifier doc p) = some r) (_hdef : r.defined = true) :
    lookupC (add_dfn defs doc p deps) (extract_identifier doc p) =
      some { dependencies := deps, defined := true, dfn_txt := serializeAt doc p,
             name := clean_token (getTextStrip doc p), type_ := r.type_, ctype := r.ctype } :=
  add_dfn_lookup hid hl

/-- C3, witness: the amended statement applied to the concrete redefinition
of `x` after the classification pass wrote `callable` for it. -/
theorem claim_C3_witness :
    lookupC (add_dfn c3classified docSingle [0, 0] []) (extract_identifier docSingle [0, 0]) =
      some { dependencies := [], defined := true,
             dfn_txt := serializeAt docSingle [0, 0],
             name := clean_token (getTextStrip docSingle [0, 0]),
             type_ := "unknown", ctype := some (some "callable") } := by
  have hl : lookupC c3classified (extract_identifier docSingle [0, 0]) =
      some { dependencies := [], defined := true,
             dfn_txt := serializeAt docSingle [0, 0],
             name := clean_token (getTextStrip docSingle [0, 0]),
             type_ := "unknown", ctype := some (some "callable") } := by decide
  exact claim_C3_amended c3classified docSingle [0, 0] [] _ (by decide) hl (by decide)

theorem pairsOK_iff_chain (doc : Node) (l : List Path) :
    pairsOK doc l = true ↔
      List.Chain' (fun a b => gapText doc a b = "" ∨ gapText doc a b = "and") l := by
  induction l with
  | nil => simp [pairsOK]
  | cons a l ih =>
      cases l with
      | nil => simp [pairsOK]
      | cons b l =>
          rw [List.chain'_cons]
          simp only [pairsOK, Bool.and_eq_true, gapOK, Bool.or_eq_true, decide_eq_true_eq]
          exact and_congr or_comm ih

/-- C9.  `is_multiple_dfn` accepts exactly when there are at least two markers
and, for every consecutive pair, the text strictly between them — after
stripping commas, periods and backticks and cleaning whitespace — is empty or
the connective word `and` (first conjunct); the three-marker example with gap
texts `","` and `" and "` is accepted (second conjunct); lists with fewer than
two markers are never accepted (remaining conjuncts). -/
theorem claim_C9_conjunction_heuristic :
    (∀ (doc : Node) (dfns : List Path),
        is_multiple_dfn doc dfns = true ↔
          2 ≤ dfns.length ∧
            List.Chain' (fun a b => gapText doc a b = "" ∨ gapText doc a b = "and") dfns) ∧
    (is_multiple_dfn docConj [[0, 0], [0, 2], [0, 4]] = true ∧
      gapText docConj [0, 0] [0, 2] = "" ∧ gapText docConj [0, 2] [0, 4] = "and") ∧
    (∀ (doc : Node) (p : Path), is_multiple_dfn doc [p] = false) ∧
    (∀ doc : Node, is_multiple_dfn doc [] = false) := by
  refine ⟨?_, ⟨rfl, rfl, rfl⟩, fun doc p => rfl, fun doc => rfl⟩
  intro doc dfns
  unfold is_multiple_dfn
  split
  · rename_i hle
    constructor
    · intro h; exact absurd h (by simp)
    · rintro ⟨h2, -⟩; omega
  · rename_i hgt
    rw [pairsOK_iff_chain]
    constructor
    · intro h; exact ⟨by omega, h⟩
    · rintro ⟨-, h⟩; exact h

/-- C10.  For a marker that passes the identifier check (`hid`) and the
multiple-marker gate (`hgate`), the defining region is chosen by the parent's
next sibling element: a list-shaped sibling (`ol`/`ul`/`dl`) yields
dependencies harvested from that sibling and consumes parent and sibling; an
absent sibling, or a plain-paragraph sibling, yields dependencies harvested
from the parent and consumes only the parent; any other sibling shape bumps
the not-understood counter and leaves the registry and the tree unchanged. -/
theorem claim_C10_shape_rule (st : ExtractState) (p : Path)
    (a : List (String × String)) (c : List Node) (st1 : ExtractState)
    (hn : getAt? st.doc p = some (.elem "dfn" a c))
    (hid : extract_identifier st.doc p ≠ "")
    (hgate : gateResult st p.dropLast = some st1) :
    (∀ (q : Path) (t : String) (qa : List (String × String)) (qc : List Node),
        findNextSiblingElem st.doc p.dropLast = some q →
        getAt? st.doc q = some (.elem t qa qc) →
        (t = "ol" ∨ t = "ul" ∨ t = "dl") →
        (extractStep st p).defs = add_dfn st.defs st.doc p (extract_refs st.doc q) ∧
        (extractStep st p).doc = escapeAt (escapeAt st.doc p.dropLast) q ∧
        (extractStep st p).cnt_skip_unknown = st.cnt_skip_unknown) ∧
    (findNextSiblingElem st.doc p.dropLast = none →
        (extractStep st p).defs = add_dfn st.defs st.doc p (extract_refs st.doc p.dropLast) ∧
        (extractStep st p).doc = escapeAt st.doc p.dropLast ∧
        (extractStep st p).cnt_skip_unknown = st.cnt_skip_unknown) ∧
    (∀ (q : Path) (qa : List (String × String)) (qc : List Node),
        findNextSiblingElem st.doc p.dropLast = some q →
        getAt? st.doc q = some (.elem "p" qa qc) →
        (extractStep st p).defs = add_dfn st.defs st.doc p (extract_refs st.doc p.dropLast) ∧
        (extractStep st p).doc = escapeAt st.doc p.dropLast ∧
        (extractStep st p).cnt_skip_unknown = st.cnt_skip_unknown) ∧
    (∀ (q : Path) (t : String) (qa : List (String × String)) (qc : List Node),
        findNextSiblingElem st.doc p.dropLast = some q →
        getAt? st.doc q = some (.elem t qa qc) →
        ¬(t = "ol" ∨ t = "ul" ∨ t = "dl" ∨ t = "p") →
        (extractStep st p).defs = st.defs ∧
        (extractStep st p).doc = st.doc ∧
        (extractStep st p).cnt_skip_unknown = st.cnt_skip_unknown + 1) := by
  obtain ⟨hdoc, hdefs, hsk⟩ := gateResult_some hgate
  have hstep : extractStep st p = shapeStep st1 p p.dropLast := by
    simp only [extractStep, hn, if_neg hid, hgate]
  refine ⟨?_, ?_, ?_, ?_⟩
  · intro q t qa qc hsib htag hlist
    have hcond : (t = "ol" || t = "ul" || t = "dl") = true := by
      rcases hlist with h | h | h <;> simp [h]
    rw [hstep]
    simp [shapeStep, hdoc, hsib, htag, hcond, hdefs, hsk]
  · intro hsib
    rw [hstep]
    simp [shapeStep, hdoc, hsib, hdefs, hsk]
  · intro q qa qc hsib htag
    rw [hstep]
    simp [shapeStep, hdoc, hsib, htag, hdefs, hsk]
  · intro q t qa qc hsib htag hother
    have h1 : t ≠ "ol" := fun h => hother (Or.inl h)
    have h2 : t ≠ "ul" := fun h => hother (Or.inr (Or.inl h))
    have h3 : t ≠ "dl" := fun h => hother (Or.inr (Or.inr (Or.inl h)))
    have h4 : t ≠ "p" := fun h => hother (Or.inr (Or.inr (Or.inr h)))
    rw [hstep]
    simp [shapeStep, hdoc, hsib, htag, h1, h2, h3, h4, hdefs, hsk]

/-- C10, witness: the shape rule applied to the concrete marker whose parent's
next sibling is an unordered list of two references. -/
theorem claim_C10_witness :
    (extractStep (initState docListShape []) [0, 0]).defs =
      add_dfn [] docListShape [0, 0] (extract_refs docListShape [1]) ∧
    (extractStep (initState docListShape []) [0, 0]).doc =
      escapeAt (escapeAt docListShape [0]) [1] ∧
    (extractStep (initState docListShape []) [0, 0]).cnt_skip_unknown = 0 := by
  have h := (claim_C10_shape_rule (initState docListShape []) [0, 0]
      [("id", "x")] [.text "X"] (initState docListShape []) rfl (by decide) rfl).1
      [1] "ul" []
      [.elem "li" [] [.elem "a" [("href", "/spec#y")] [.text "y"]],
       .elem "li" [] [.elem "a" [("href", "#z")] [.text "z"]]]
      rfl rfl (Or.inr (Or.inl rfl))
  exact h

/-- A response that is a call to one of the five primitives the interpreter
advertises in its prompt menu, with any argument list (a wrong arity raises
`TypeError` inside the `try` block and is answered with the corrective
message, so arity is not restricted here).  On this vocabulary the dispatch
model is exactly the source's behavior; outside it, `getattr` reaches the
object's other attributes (helper methods, inherited dunders such as
`__delattr__(done)`, which deletes the flag that the post-dispatch
`if self.done` check — outside the `try` — then fails to find), so the
quantified theorem below is restricted to it. -/
def primCallB (r : String) : Bool :=
  match parse_response r with
  | some ma =>
      ma.1 = "finish" || ma.1 = "create_concept" || ma.1 = "add_dependencies" ||
        ma.1 = "get_previous_context" || ma.1 = "get_next_context"
  | none => false

theorem promptLoop_good {stream : Nat → String}
    (hg : ∀ k, primCallB (stream k) = true) :
    ∀ (fuel : Nat) (st : LLMTask) (k : Nat),
      (promptLoop st stream k fuel).2 ≤ k + fuel ∧
      (∃ r, (promptLoop st stream k fuel).1 = .ok r) ∧
      ((promptLoop st stream k fuel).1 = .ok none →
        (promptLoop st stream k fuel).2 = k + fuel) := by
  intro fuel
  induction fuel with
  | zero => exact fun st k => ⟨Nat.le_refl _, ⟨none, rfl⟩, fun _ => rfl⟩
  | succ fuel ih =>
      intro st k
      have hk := hg k
      simp only [primCallB] at hk
      cases hp : parse_response (stream k) with
      | none => rw [hp] at hk; exact absurd hk (by simp)
      | some ma =>
          simp only [promptLoop, hp]
          by_cases hdone : (dispatch st ma.1 ma.2).1.done = true
          · rw [if_pos hdone]
            exact ⟨by omega, ⟨some (dispatch st ma.1 ma.2).1.solution, rfl⟩,
              fun h => absurd h (by simp)⟩
          · rw [if_neg hdone]
            obtain ⟨h1, h2, h3⟩ := ih (dispatch st ma.1 ma.2).1 (k + 1)
            exact ⟨by omega, h2, fun h => by rw [h3 h]; omega⟩

/-- C8, amended.  Provided every oracle response parses as a call to one of
the five advertised primitives (with any argument list; a wrong arity is
answered with the corrective message inside the budget), the prompt loop
performs at most `max_steps` oracle interactions and exits in exactly one of
two ways: a successful return of the accumulated solution log once `done` was
set, or a `None` return exactly when the budget is exhausted (first
conjunct); and feeding `finish()` as the first response returns the empty
solution log after a single interaction (second conjunct).  Outside this
vocabulary the loop can instead abort: an unparseable line raises `TypeError`
(see the counterexample), and reflective attribute calls such as
`__delattr__(done)` or `query_llm(...)` can break or re-enter the
interpreter's own machinery. -/
theorem claim_C8_amended :
    (∀ (st : LLMTask) (stream : Nat → String) (task : String),
        (∀ k, primCallB (stream k) = true) →
        (st.prompt stream task).2 ≤ st.max_steps ∧
        (∃ r, (st.prompt stream task).1 = .ok r) ∧
        ((st.prompt stream task).1 = .ok none →
          (st.prompt stream task).2 = st.max_steps)) ∧
    (∀ (sibs : List Node) (i ms : Nat) (stream : Nat → String) (task : String),
        parse_response (stream 0) = some ("finish", []) → 1 ≤ ms →
        LLMTask.prompt (mkLLMTask sibs i ms) stream task = (.ok (some []), 1)) := by
  constructor
  · intro st stream task hg
    have h := promptLoop_good hg st.max_steps st 0
    simpa [LLMTask.prompt] using h
  · intro sibs i ms stream task hp hms
    obtain ⟨n, rfl⟩ : ∃ n, ms = n + 1 := ⟨ms - 1, by omega⟩
    simp [LLMTask.prompt, promptLoop, hp, dispatch, mkLLMTask]

/-- C8, witness: the amended statement applied to a concrete interpreter state
and the constant-response streams `get_next_context()` and `finish()`. -/
theorem claim_C8_witness :
    (((mkLLMTask [] 0).prompt (fun _ => "get_next_context()") "t").2 ≤ 10 ∧
      (∃ r, ((mkLLMTask [] 0).prompt (fun _ => "get_next_context()") "t").1 = .ok r)) ∧
    (mkLLMTask [] 0 5).prompt (fun _ => "finish()") "t" = (.ok (some []), 1) := by
  have h1 := claim_C8_amended.1 (mkLLMTask [] 0) (fun _ => "get_next_context()") "t"
    (fun _ => rfl)
  have h2 := claim_C8_amended.2 [] 0 5 (fun _ => "finish()") "t" rfl (by omega)
  exact ⟨⟨h1.1, h1.2.1⟩, h2⟩

end Specysis
